import Mathlib

/-!
Shallow embedding of the Dynamic Content Loader coordination core of the
helga-agentur/ui-components repository:

* `Request` models the Transport class (`Request.mjs`, shipped inline in the
  `LinkListener.js` source bundle): one URL, one abort signal, a list of
  updater callbacks plus a `Map` from updater identity to auxiliary data.
* `RequestPool` models `RequestPool.mjs`: the registry of updaters, the
  per-cycle `AbortController`, and `loadContent`, which aborts the previous
  cycle, groups updaters by the exact URL string returned by their
  `getRequestConfig`, constructs one `Request` per distinct URL and
  dispatches all of them.

JavaScript functions are identified by numeric keys (`Nat`): within one
cycle the pool registers `updater.updateResponseStatus.bind(updater)`, a
fresh function per registry entry, so the registry index is a faithful
identity for the bound handler.  Callback invocations are not executed;
they are recorded as events in a trace, in the order the source performs
them.  The network is an oracle mapping each URL to a `FetchOutcome`.
-/

namespace DCL

/-- Lifecycle status values used by `Request`: `loading`, `loaded`, `failed`. -/
inductive Status where
  | loading
  | loaded
  | failed
deriving DecidableEq, Repr

/-- The part of a fetch `Response` the code consumes: `response.ok` decides
loaded vs failed, `response.text()` yields the body. `statusCode` mirrors
`response.status` (carried through untouched). -/
structure HttpResponse where
  ok : Bool
  statusCode : Nat
  bodyText : String
deriving DecidableEq, Repr

/-- How the platform `fetch(url, { signal })` call settles:
`aborted` — the signal fired before settling, the promise rejects with an
`AbortError`; `networkError` — DNS failure / offline, the promise rejects
with a `TypeError`; `response` — the promise resolves with an HTTP
response (2xx or not). -/
inductive FetchOutcome where
  | aborted
  | networkError
  | response (resp : HttpResponse)
deriving DecidableEq, Repr

/-- Errors thrown (or rejections produced) by the modelled code.
`invalidUrl` is the `Request` constructor's `Parameter url must be a
non-empty String` error; `nonStringUrl` is `RequestPool.loadContent`'s
`Expected URL returned by getRequestConfig funtion to be a string` error;
`abortErr` / `networkErr` are the rejection reasons of the platform fetch. -/
inductive JsError where
  | invalidUrl
  | nonStringUrl
  | abortErr
  | networkErr
deriving DecidableEq, Repr

/-- The plain object passed to an updater callback.  Absent JS fields are
`none`: the loading update `\x7b status: 'loading', url \x7d` has no
`response`/`content`, and the terminal update
`\x7b response, content, status \x7d` has no `url`.  The `data` field is
added by `#callAllUpdaters` from the per-updater `Map` (JS `undefined`
is `none`). -/
structure StatusUpdate (Data : Type) where
  status : Status
  url : Option String
  response : Option HttpResponse
  content : Option String
  data : Option Data
deriving DecidableEq, Repr

/-- JS `Map.set`: overwrite the value of an existing key in place, else
append the binding. -/
def mapSet {K V : Type} [DecidableEq K] : List (K × V) → K → V → List (K × V)
  | [], k, v => [(k, v)]
  | (k', v') :: rest, k, v =>
    if k' = k then (k', v) :: rest else (k', v') :: mapSet rest k v

/-- JS `Map.get`: the value bound to the key, `none` when absent. -/
def mapGet {K V : Type} [DecidableEq K] : List (K × V) → K → Option V
  | [], _ => none
  | (k', v') :: rest, k => if k' = k then some v' else mapGet rest k

/-- The Transport (`Request.mjs`): `#url`, `#signal` (identified by the id of
the `AbortController` that owns it), `#updaters` (list, duplicates allowed)
and `#data` (a `Map` keyed by updater function identity). -/
structure Request (Data : Type) where
  url : String
  signal : Nat
  updaters : List Nat
  data : List (Nat × Option Data)
deriving DecidableEq, Repr

/-- A `Request` as freshly constructed (no updater registered yet). -/
def Request.base (Data : Type) (url : String) (signal : Nat) :
    Request Data :=
  { url := url, signal := signal, updaters := [], data := [] }

/-- The `Request` constructor: throws `invalidUrl` when `url` is falsy
(the empty string; a non-string is unrepresentable here since the argument
is typed).  The signal argument is always an `AbortSignal` in this
embedding, so the constructor's second check cannot fire. -/
def Request.make (Data : Type) (url : String) (signal : Nat) :
    Except JsError (Request Data) :=
  if url = "" then .error .invalidUrl
  else .ok (Request.base Data url signal)

/-- `Request.addUpdater(updater, data)`: pushes the updater onto `#updaters`
and stores its data under its function identity in the `#data` map.  The
`typeof updater !== 'function'` guard cannot fire here because keys denote
functions by construction. -/
def Request.addUpdater {Data : Type} (r : Request Data) (updater : Nat)
    (data : Option Data) : Request Data :=
  { r with updaters := r.updaters ++ [updater],
           data := mapSet r.data updater data }

/-- `Request.#callAllUpdaters(data)`: calls every registered updater, in
registration order, with the payload spread together with
`data: this.#data.get(updater)`.  Returns the list of (updater, argument)
invocations. -/
def Request.callAllUpdaters {Data : Type} (r : Request Data)
    (base : StatusUpdate Data) : List (Nat × StatusUpdate Data) :=
  r.updaters.map fun k => (k, { base with data := (mapGet r.data k).join })

/-- The argument of the loading update:
`\x7b status: 'loading', url: this.#url \x7d` (before the `data` field is
added per updater). -/
def loadingUpdate {Data : Type} (url : String) : StatusUpdate Data :=
  { status := .loading, url := some url, response := none, content := none,
    data := none }

/-- The argument of the terminal update:
`\x7b response, content, status: response.ok ? 'loaded' : 'failed' \x7d`
with `content = await response.text()`; note there is no `url` field. -/
def terminalUpdate {Data : Type} (resp : HttpResponse) : StatusUpdate Data :=
  { status := if resp.ok then .loaded else .failed, url := none,
    response := some resp, content := some resp.bodyText, data := none }

/-- `Request.fetch()`: synchronously delivers the loading update to every
updater, then awaits the platform fetch.  If the fetch resolves, the body is
read and the terminal update is delivered; if it rejects (abort or network
failure) the `async` function rejects — there is no `try`/`catch` in the
source, so no further updater call happens.  Returns the invocation trace
and the settlement of the returned promise. -/
def Request.fetch {Data : Type} (r : Request Data) (outcome : FetchOutcome) :
    List (Nat × StatusUpdate Data) × Except JsError Unit :=
  match outcome with
  | .aborted => (r.callAllUpdaters (loadingUpdate r.url), .error .abortErr)
  | .networkError =>
    (r.callAllUpdaters (loadingUpdate r.url), .error .networkErr)
  | .response resp =>
    (r.callAllUpdaters (loadingUpdate r.url)
      ++ r.callAllUpdaters (terminalUpdate resp), .ok ())

/-- What an updater's `getRequestConfig(requestConfiguration)` returns, as
the `const \x7b url, data \x7d = ...` destructuring in
`RequestPool.loadContent` sees it: `nullUrl` when `url === null` (opt out),
`nonString` when `url` is neither `null` nor a string (a contract
violation `loadContent` turns into a thrown error), or a string URL with
the optional auxiliary `data` value (`none` = the `data` property was
absent / `undefined`). -/
inductive UrlResult (Data : Type) where
  | nullUrl
  | nonString
  | str (url : String) (data : Option Data)
deriving DecidableEq, Repr

/-- A registered updater: the pool only ever calls its `getRequestConfig`
with the cycle's request configuration (its `updateResponseStatus` is
identified by the updater's registry index, see `PoolEvent.statusCall`). -/
structure Updater (Config Data : Type) where
  getRequestConfig : Config → UrlResult Data

/-- `RequestPool`: the `#updaters` registry, the `#latestAbortController`
(identified by a numeric id, `none` before the first cycle) and a fresh-id
supply standing for `new AbortController()` allocation. -/
structure RequestPool (Config Data : Type) where
  updaters : List (Updater Config Data)
  latestAbortController : Option Nat
  nextControllerId : Nat

/-- A new `RequestPool` (the constructor's `RequestClass` validation is
about the injected class; this embedding always uses the real `Request`). -/
def RequestPool.new (Config Data : Type) : RequestPool Config Data :=
  { updaters := [], latestAbortController := none, nextControllerId := 0 }

/-- `RequestPool.addUpdater(updater)`: appends to the registry.  The
validation that `updateResponseStatus` / `getRequestConfig` are functions
cannot fire here because both are functions by construction. -/
def RequestPool.addUpdater {Config Data : Type} (p : RequestPool Config Data)
    (u : Updater Config Data) : RequestPool Config Data :=
  { p with updaters := p.updaters ++ [u] }

/-- Observable steps of one coordination cycle, in the order the source
performs them: `abortSignal c` — `#latestAbortController.abort(...)` fires
controller `c`'s signal; `constructRequest c u` — `new Request(\x7b url,
signal \x7d)` bound to controller `c`; `fetchStart u` — `request.fetch()`
is invoked; `statusCall i upd` — producer `i`'s bound
`updateResponseStatus` is invoked with `upd`. -/
inductive PoolEvent (Data : Type) where
  | abortSignal (controller : Nat)
  | constructRequest (controller : Nat) (url : String)
  | fetchStart (url : String)
  | statusCall (producer : Nat) (update : StatusUpdate Data)
deriving DecidableEq, Repr

/-- Helper for the mutation `matchingRequest.addUpdater(...)` inside the
reduce: the first request of the accumulator whose `url` matches gains the
updater; the rest is untouched. -/
def addToFirstMatching {Data : Type} :
    List (Request Data) → String → Nat → Option Data → List (Request Data)
  | [], _, _, _ => []
  | r :: rest, url, k, d =>
    if r.url = url then r.addUpdater k d :: rest
    else r :: addToFirstMatching rest url k d

/-- The `reduce` inside `RequestPool.loadContent`, indexed so that updater
`i` is the producer at registry index `i`: skip `null` URLs, throw on
non-string URLs, add the updater to the first request with the same URL
string if one exists, otherwise construct a fresh `Request` (which throws
on an empty URL) and record the construction.  An error short-circuits the
whole reduce, keeping the events emitted so far. -/
def buildRequests {Data : Type} (controller : Nat) :
    Nat → List (UrlResult Data) → List (Request Data) →
    List (PoolEvent Data) →
    List (Request Data) × List (PoolEvent Data) × Option JsError
  | _, [], acc, evs => (acc, evs, none)
  | i, .nullUrl :: rest, acc, evs =>
    buildRequests controller (i + 1) rest acc evs
  | _, .nonString :: _, acc, evs => (acc, evs, some .nonStringUrl)
  | i, .str url d :: rest, acc, evs =>
    match acc.find? (fun r => r.url == url) with
    | some _ =>
      buildRequests controller (i + 1) rest
        (addToFirstMatching acc url i d) evs
    | none =>
      match Request.make Data url controller with
      | .error e => (acc, evs, some e)
      | .ok r =>
        buildRequests controller (i + 1) rest (acc ++ [r.addUpdater i d])
          (evs ++ [.constructRequest controller url])

/-- `requests.forEach((request) => request.fetch())` together with the
synchronous prefix of each `fetch()`: for every dispatched request, the
fetch starts and the loading update is delivered to all its updaters
before the first `await`. -/
def dispatchEvents {Data : Type} (reqs : List (Request Data)) :
    List (PoolEvent Data) :=
  reqs.flatMap fun r =>
    .fetchStart r.url ::
      (r.callAllUpdaters (loadingUpdate r.url)).map fun c =>
        .statusCall c.1 c.2

/-- The result of one `loadContent` call: the pool state afterwards (the
abort and controller renewal happen before the reduce, so they persist
even when the reduce throws), the requests that were dispatched (none when
`loadContent` threw: the `forEach` line is never reached), the synchronous
event trace, and the error `loadContent` threw, if any. -/
structure LoadOutcome (Config Data : Type) where
  pool : RequestPool Config Data
  requests : List (Request Data)
  events : List (PoolEvent Data)
  error : Option JsError

/-- `this.#latestAbortController.abort(...)`: the abort of the previous
cycle's controller, a no-op (no event) before the first cycle. -/
def abortEvs {Config Data : Type} (p : RequestPool Config Data) :
    List (PoolEvent Data) :=
  match p.latestAbortController with
  | some controller => [.abortSignal controller]
  | none => []

/-- The pool state right after `loadContent`'s prologue: the previous
controller was aborted and `this.#latestAbortController = new
AbortController()` installed a fresh one.  These mutations happen before
the grouping reduce, so they persist even when the reduce throws. -/
def cyclePool {Config Data : Type} (p : RequestPool Config Data) :
    RequestPool Config Data :=
  { p with latestAbortController := some p.nextControllerId,
           nextControllerId := p.nextControllerId + 1 }

/-- The value of `updater.getRequestConfig(requestConfiguration)` for every
registered updater, in registry order. -/
def poolResults {Config Data : Type} (p : RequestPool Config Data)
    (cfg : Config) : List (UrlResult Data) :=
  p.updaters.map fun x => x.getRequestConfig cfg

/-- The grouping reduce exactly as one `loadContent` call runs it: over all
registered updaters, keyed to the cycle's fresh controller, starting from
the empty accumulator of the `reduce(..., [])`. -/
def poolBuild {Config Data : Type} (p : RequestPool Config Data)
    (cfg : Config) :
    List (Request Data) × List (PoolEvent Data) × Option JsError :=
  buildRequests p.nextControllerId 0 (poolResults p cfg) [] []

/-- `RequestPool.loadContent(requestConfiguration)`: aborts the previous
cycle's controller (if any), allocates a fresh `AbortController`, runs the
grouping reduce over all registered updaters, and dispatches every
resulting request (`requests.forEach((request) => request.fetch())`).  A
throw inside the reduce propagates out of `loadContent`, so the `forEach`
line is never reached and nothing is dispatched.
`#validateRequestConfiguration` cannot throw here because the
configuration is well-typed by construction. -/
def RequestPool.loadContent {Config Data : Type}
    (p : RequestPool Config Data) (cfg : Config) : LoadOutcome Config Data :=
  match poolBuild p cfg with
  | (_, evs, some e) => ⟨cyclePool p, [], abortEvs p ++ evs, some e⟩
  | (reqs, evs, none) =>
    ⟨cyclePool p, reqs, abortEvs p ++ evs ++ dispatchEvents reqs, none⟩

/-- Asynchronous completions of a dispatched cycle: each request's fetch
settles according to the network oracle (URLs are distinct across the
requests of one cycle, so an oracle keyed by URL is exact).  Only a
resolving fetch delivers the terminal update; a rejecting fetch (abort or
network failure) delivers nothing further. -/
def completionEvents {Data : Type} (reqs : List (Request Data))
    (oracle : String → FetchOutcome) : List (PoolEvent Data) :=
  reqs.flatMap fun r =>
    match oracle r.url with
    | .response resp =>
      (r.callAllUpdaters (terminalUpdate resp)).map fun c =>
        .statusCall c.1 c.2
    | _ => []

/-- The rejections that escape the dispatch path unhandled:
`RequestPool.loadContent` invokes `request.fetch()` without attaching any
rejection handler, and `Request.fetch` itself has no `try`/`catch`, so the
rejection of every aborted or network-failed fetch of a dispatched cycle
surfaces as an unhandled promise rejection. -/
def uncaughtRejections {Data : Type} (reqs : List (Request Data))
    (oracle : String → FetchOutcome) : List JsError :=
  reqs.filterMap fun r =>
    match (r.fetch (oracle r.url)).2 with
    | .error e => some e
    | .ok _ => none

/-- The complete event trace of one cycle: the synchronous part of
`loadContent` followed by the asynchronous completions of the requests it
dispatched. -/
def cycleTrace {Config Data : Type} (p : RequestPool Config Data)
    (cfg : Config) (oracle : String → FetchOutcome) :
    List (PoolEvent Data) :=
  (p.loadContent cfg).events
    ++ completionEvents (p.loadContent cfg).requests oracle

/-- The payload an updater call actually receives: the base payload with
the `data` field set from the per-updater `Map`
(`\x7b ...data, data: this.#data.get(updater) \x7d`). -/
def withData {Data : Type} (base : StatusUpdate Data) (d : Option Data) :
    StatusUpdate Data :=
  { base with data := d }

/-- The invocations a given producer receives, in trace order. -/
def callsTo {Data : Type} (k : Nat) (evs : List (PoolEvent Data)) :
    List (StatusUpdate Data) :=
  evs.filterMap fun e =>
    match e with
    | .statusCall j upd => if j = k then some upd else none
    | _ => none

/-- The producers (registry indices, with their auxiliary data) whose
`getRequestConfig` result maps them to the given URL, starting from
registry index `i`. -/
def membersFor {Data : Type} (url : String) :
    Nat → List (UrlResult Data) → List (Nat × Option Data)
  | _, [] => []
  | i, .str u d :: rest =>
    if u = url then (i, d) :: membersFor url (i + 1) rest
    else membersFor url (i + 1) rest
  | i, .nullUrl :: rest => membersFor url (i + 1) rest
  | i, .nonString :: rest => membersFor url (i + 1) rest

/-- Add a whole group of updaters to a request, in order. -/
def Request.addAll {Data : Type} (r : Request Data)
    (ms : List (Nat × Option Data)) : Request Data :=
  ms.foldl (fun acc m => acc.addUpdater m.1 m.2) r

/-- `previous.find((request) => request.url === url)`: the first request of
the accumulator for a URL. -/
def findReq {Data : Type} (reqs : List (Request Data)) (url : String) :
    Option (Request Data) :=
  reqs.find? fun r => r.url == url

/-! Basic facts about the request helpers. -/

theorem addUpdater_url {Data : Type} (r : Request Data) (k : Nat)
    (d : Option Data) : (r.addUpdater k d).url = r.url := rfl

theorem addAll_nil {Data : Type} (r : Request Data) : r.addAll [] = r := rfl

theorem addAll_cons {Data : Type} (r : Request Data) (m : Nat × Option Data)
    (ms : List (Nat × Option Data)) :
    r.addAll (m :: ms) = (r.addUpdater m.1 m.2).addAll ms := rfl

theorem addAll_url {Data : Type} (r : Request Data)
    (ms : List (Nat × Option Data)) : (r.addAll ms).url = r.url := by
  induction ms generalizing r with
  | nil => rfl
  | cons m ms ih => rw [addAll_cons, ih, addUpdater_url]

theorem addAll_signal {Data : Type} (r : Request Data)
    (ms : List (Nat × Option Data)) : (r.addAll ms).signal = r.signal := by
  induction ms generalizing r with
  | nil => rfl
  | cons m ms ih => rw [addAll_cons, ih]; rfl

theorem addAll_updaters {Data : Type} (r : Request Data)
    (ms : List (Nat × Option Data)) :
    (r.addAll ms).updaters = r.updaters ++ ms.map Prod.fst := by
  induction ms generalizing r with
  | nil => simp [addAll_nil]
  | cons m ms ih =>
    rw [addAll_cons, ih]
    simp [Request.addUpdater]

theorem mapGet_mapSet_self {K V : Type} [DecidableEq K]
    (m : List (K × V)) (k : K) (v : V) : mapGet (mapSet m k v) k = some v := by
  induction m with
  | nil => simp [mapSet, mapGet]
  | cons kv rest ih =>
    by_cases h : kv.1 = k
    · simp [mapSet, mapGet, h]
    · simp [mapSet, mapGet, h, ih]

theorem mapGet_mapSet_ne {K V : Type} [DecidableEq K]
    (m : List (K × V)) (k k' : K) (v : V) (h : k' ≠ k) :
    mapGet (mapSet m k v) k' = mapGet m k' := by
  induction m with
  | nil =>
    simp only [mapSet, mapGet]
    exact if_neg fun hh => h (Eq.symm hh)
  | cons kv rest ih =>
    by_cases hk : kv.1 = k
    · subst hk
      simp only [mapSet, if_pos rfl]
      have : kv.1 ≠ k' := fun hh => h (hh.symm)
      simp [mapGet, this, h]
    · simp only [mapSet, if_neg hk]
      by_cases hk' : kv.1 = k'
      · simp [mapGet, hk']
      · simp [mapGet, hk', ih]

theorem addAll_data_get_notmem {Data : Type} (r : Request Data)
    (ms : List (Nat × Option Data)) (k : Nat) (h : k ∉ ms.map Prod.fst) :
    mapGet (r.addAll ms).data k = mapGet r.data k := by
  induction ms generalizing r with
  | nil => rfl
  | cons m ms ih =>
    simp only [List.map_cons, List.mem_cons] at h
    push_neg at h
    rw [addAll_cons, ih _ h.2]
    exact mapGet_mapSet_ne _ _ _ _ h.1

theorem addAll_data_get_mem {Data : Type} (r : Request Data)
    (ms : List (Nat × Option Data)) (k : Nat) (d : Option Data)
    (hnd : (ms.map Prod.fst).Nodup) (h : (k, d) ∈ ms) :
    mapGet (r.addAll ms).data k = some d := by
  induction ms generalizing r with
  | nil => cases h
  | cons m ms ih =>
    simp only [List.map_cons, List.nodup_cons] at hnd
    rcases List.mem_cons.mp h with h | h
    · subst h
      rw [addAll_cons, addAll_data_get_notmem _ _ _ hnd.1]
      exact mapGet_mapSet_self _ _ _
    · exact addAll_cons r m ms ▸ ih _ hnd.2 h

/-! Facts about `membersFor`. -/

theorem membersFor_key_ge {Data : Type} (url : String) (i : Nat)
    (results : List (UrlResult Data)) (k : Nat) (d : Option Data)
    (h : (k, d) ∈ membersFor url i results) : i ≤ k := by
  induction results generalizing i with
  | nil => cases h
  | cons res rest ih =>
    match res with
    | .nullUrl =>
      exact Nat.le_of_succ_le (ih (i + 1) (by simpa [membersFor] using h))
    | .nonString =>
      exact Nat.le_of_succ_le (ih (i + 1) (by simpa [membersFor] using h))
    | .str u dd =>
      by_cases hu : u = url
      · simp only [membersFor, if_pos hu] at h
        rcases List.mem_cons.mp h with h | h
        · exact (Prod.mk.injEq .. ▸ h).1 ▸ le_refl _
        · exact Nat.le_of_succ_le (ih (i + 1) h)
      · simp only [membersFor, if_neg hu] at h
        exact Nat.le_of_succ_le (ih (i + 1) h)

theorem membersFor_keys_nodup {Data : Type} (url : String) (i : Nat)
    (results : List (UrlResult Data)) :
    ((membersFor url i results).map Prod.fst).Nodup := by
  induction results generalizing i with
  | nil => simp [membersFor]
  | cons res rest ih =>
    match res with
    | .nullUrl => simpa [membersFor] using ih (i + 1)
    | .nonString => simpa [membersFor] using ih (i + 1)
    | .str u dd =>
      by_cases hu : u = url
      · simp only [membersFor, if_pos hu, List.map_cons, List.nodup_cons]
        refine ⟨fun hmem => ?_, ih (i + 1)⟩
        rcases List.mem_map.mp hmem with ⟨⟨k, d⟩, hkd, hfst⟩
        have := membersFor_key_ge url (i + 1) rest k d hkd
        omega
      · simpa [membersFor, if_neg hu] using ih (i + 1)

theorem membersFor_of_get {Data : Type} (url : String)
    (results : List (UrlResult Data)) (i n : Nat) (d : Option Data)
    (h : results.get? n = some (.str url d)) :
    (i + n, d) ∈ membersFor url i results := by
  induction results generalizing i n with
  | nil => simp at h
  | cons res rest ih =>
    match n with
    | 0 =>
      simp only [List.get?_cons_zero, Option.some.injEq] at h
      subst h
      simp [membersFor]
    | n + 1 =>
      simp only [List.get?_cons_succ] at h
      have := ih (i + 1) n h
      have harr : i + 1 + n = i + (n + 1) := by omega
      match res with
      | .nullUrl => simpa [membersFor, harr] using this
      | .nonString => simpa [membersFor, harr] using this
      | .str u dd =>
        by_cases hu : u = url
        · simp only [membersFor, if_pos hu]
          exact List.mem_cons_of_mem _ (harr ▸ this)
        · simpa [membersFor, if_neg hu, harr] using this

theorem get_of_membersFor {Data : Type} (url : String)
    (results : List (UrlResult Data)) (i k : Nat) (d : Option Data)
    (h : (k, d) ∈ membersFor url i results) :
    results.get? (k - i) = some (.str url d) := by
  induction results generalizing i with
  | nil => cases h
  | cons res rest ih =>
    have step : ∀ hh : (k, d) ∈ membersFor url (i + 1) rest,
        (res :: rest).get? (k - i) = some (.str url d) := by
      intro hh
      have hge := membersFor_key_ge url (i + 1) rest k d hh
      have := ih (i + 1) hh
      have harr : k - i = (k - (i + 1)) + 1 := by omega
      rw [harr]
      simpa using this
    match res with
    | .nullUrl => exact step (by simpa [membersFor] using h)
    | .nonString => exact step (by simpa [membersFor] using h)
    | .str u dd =>
      by_cases hu : u = url
      · simp only [membersFor, if_pos hu] at h
        rcases List.mem_cons.mp h with h | h
        · have hk : k = i := congrArg Prod.fst h
          have hd : d = dd := congrArg Prod.snd h
          subst hk
          subst hd
          subst hu
          simp [Nat.sub_self]
        · exact step h
      · simp only [membersFor, if_neg hu] at h
        exact step h

/-! Facts about `findReq` and `addToFirstMatching`. -/

theorem findReq_nil {Data : Type} (url : String) :
    findReq ([] : List (Request Data)) url = none := rfl

theorem findReq_cons {Data : Type} (r : Request Data)
    (rest : List (Request Data)) (url : String) :
    findReq (r :: rest) url =
      if r.url = url then some r else findReq rest url := by
  by_cases h : r.url = url
  · rw [if_pos h]
    unfold findReq
    rw [List.find?_cons_of_pos]
    simpa using h
  · rw [if_neg h]
    unfold findReq
    rw [List.find?_cons_of_neg]
    simpa using h

theorem findReq_eq_none {Data : Type} (reqs : List (Request Data))
    (url : String) (h : findReq reqs url = none) :
    ∀ r ∈ reqs, r.url ≠ url := by
  intro r hr
  have := List.find?_eq_none.mp h r hr
  simpa using this

theorem findReq_mem {Data : Type} (reqs : List (Request Data)) (url : String)
    (r : Request Data) (h : findReq reqs url = some r) :
    r ∈ reqs ∧ r.url = url := by
  refine ⟨List.mem_of_find?_eq_some h, ?_⟩
  have := List.find?_some h
  simpa using this

theorem findReq_append_of_some {Data : Type} (acc : List (Request Data))
    (x r : Request Data) (url : String) (h : findReq acc url = some r) :
    findReq (acc ++ [x]) url = some r := by
  induction acc with
  | nil => simp [findReq_nil] at h
  | cons y rest ih =>
    rw [findReq_cons] at h
    by_cases hy : y.url = url
    · rw [if_pos hy] at h
      simp only [List.cons_append, findReq_cons, if_pos hy, h]
    · rw [if_neg hy] at h
      simp only [List.cons_append, findReq_cons, if_neg hy]
      exact ih h

theorem findReq_append_of_none {Data : Type} (acc : List (Request Data))
    (x : Request Data) (url : String) (h : findReq acc url = none) :
    findReq (acc ++ [x]) url = if x.url = url then some x else none := by
  induction acc with
  | nil => simp [findReq_nil, findReq_cons]
  | cons y rest ih =>
    rw [findReq_cons] at h
    by_cases hy : y.url = url
    · rw [if_pos hy] at h
      cases h
    · rw [if_neg hy] at h
      simp only [List.cons_append, findReq_cons, if_neg hy]
      exact ih h

theorem addToFirstMatching_map_url {Data : Type} (acc : List (Request Data))
    (u : String) (k : Nat) (d : Option Data) :
    (addToFirstMatching acc u k d).map Request.url = acc.map Request.url := by
  induction acc with
  | nil => rfl
  | cons r rest ih =>
    by_cases h : r.url = u
    · simp [addToFirstMatching, h, addUpdater_url]
    · simp [addToFirstMatching, h, ih]

theorem findReq_addToFirstMatching_self {Data : Type}
    (acc : List (Request Data)) (u : String) (k : Nat) (d : Option Data) :
    findReq (addToFirstMatching acc u k d) u =
      (findReq acc u).map (fun r => r.addUpdater k d) := by
  induction acc with
  | nil => rfl
  | cons r rest ih =>
    by_cases h : r.url = u
    · have h' : (r.addUpdater k d).url = u := by rw [addUpdater_url]; exact h
      simp [addToFirstMatching, h, findReq_cons, h']
    · have h' : (r.addUpdater k d).url = u ↔ False := by
        rw [addUpdater_url]; exact iff_false_intro h
      simp [addToFirstMatching, h, findReq_cons, ih]

theorem findReq_addToFirstMatching_ne {Data : Type}
    (acc : List (Request Data)) (u' url : String) (k : Nat) (d : Option Data)
    (h : u' ≠ url) :
    findReq (addToFirstMatching acc u' k d) url = findReq acc url := by
  induction acc with
  | nil => rfl
  | cons r rest ih =>
    by_cases hr : r.url = u'
    · have hne : r.url ≠ url := fun he => h (hr ▸ he)
      have hne' : (r.addUpdater k d).url ≠ url := by
        rw [addUpdater_url]; exact hne
      simp only [addToFirstMatching, if_pos hr]
      rw [findReq_cons, if_neg hne', findReq_cons, if_neg hne]
    · simp only [addToFirstMatching, if_neg hr]
      rw [findReq_cons, findReq_cons, ih]

/-! Characterization of the grouping reduce (`buildRequests`): the request
for a URL collects exactly the producers whose `getRequestConfig` mapped
them to that URL, in registry order. -/

theorem buildRequests_find_some {Data : Type} (c : Nat)
    (results : List (UrlResult Data)) :
    ∀ (i : Nat) (acc : List (Request Data)) (evs : List (PoolEvent Data))
      (url : String) (r : Request Data),
      findReq acc url = some r →
      (buildRequests c i results acc evs).2.2 = none →
      findReq (buildRequests c i results acc evs).1 url =
        some (r.addAll (membersFor url i results)) := by
  induction results with
  | nil =>
    intro i acc evs url r h _
    simpa [buildRequests, membersFor, addAll_nil] using h
  | cons res rest ih =>
    intro i acc evs url r h hok
    match res with
    | .nullUrl =>
      simp only [buildRequests] at hok ⊢
      simpa [membersFor] using ih (i + 1) acc evs url r h hok
    | .nonString => simp [buildRequests] at hok
    | .str u d =>
      simp only [buildRequests] at hok ⊢
      cases hf : acc.find? (fun rr => rr.url == u) with
      | some rr =>
        rw [hf] at hok
        dsimp only at hok ⊢
        by_cases hu : u = url
        · subst hu
          have hfr : findReq acc u = some r := h
          have hrr : rr = r := by
            have : findReq acc u = some rr := hf
            rw [hfr] at this
            exact (Option.some.injEq .. ▸ this).symm
          have hstep : findReq (addToFirstMatching acc u i d) u =
              some (r.addUpdater i d) := by
            rw [findReq_addToFirstMatching_self, hfr]
            rfl
          have := ih (i + 1) (addToFirstMatching acc u i d) evs u
            (r.addUpdater i d) hstep hok
          rw [this]
          simp [membersFor, addAll_cons]
        · have hstep : findReq (addToFirstMatching acc u i d) url =
              some r := by
            rw [findReq_addToFirstMatching_ne _ _ _ _ _ hu, h]
          have := ih (i + 1) (addToFirstMatching acc u i d) evs url r
            hstep hok
          rw [this]
          simp [membersFor, hu]
      | none =>
        rw [hf] at hok
        dsimp only at hok ⊢
        by_cases hu : u = ""
        · simp [Request.make, hu] at hok
        · simp only [Request.make, if_neg hu] at hok ⊢
          by_cases huu : u = url
          · subst huu
            have : findReq acc u = none := hf
            rw [h] at this
            cases this
          · have hxurl :
                ((Request.base Data u c).addUpdater i d).url = u := rfl
            have hstep :
                findReq (acc ++ [(Request.base Data u c).addUpdater i d])
                  url = some r := by
              rw [findReq_append_of_some _ _ _ _ h]
            have := ih (i + 1) _ _ url r hstep hok
            rw [this]
            simp [membersFor, huu]

theorem buildRequests_find_none {Data : Type} (c : Nat)
    (results : List (UrlResult Data)) :
    ∀ (i : Nat) (acc : List (Request Data)) (evs : List (PoolEvent Data))
      (url : String),
      findReq acc url = none →
      (buildRequests c i results acc evs).2.2 = none →
      findReq (buildRequests c i results acc evs).1 url =
        match membersFor url i results with
        | [] => none
        | ms => some ((Request.base Data url c).addAll ms) := by
  induction results with
  | nil =>
    intro i acc evs url h _
    simpa [buildRequests, membersFor] using h
  | cons res rest ih =>
    intro i acc evs url h hok
    match res with
    | .nullUrl =>
      simp only [buildRequests] at hok ⊢
      simpa [membersFor] using ih (i + 1) acc evs url h hok
    | .nonString => simp [buildRequests] at hok
    | .str u d =>
      simp only [buildRequests] at hok ⊢
      cases hf : acc.find? (fun rr => rr.url == u) with
      | some rr =>
        rw [hf] at hok
        dsimp only at hok ⊢
        by_cases hu : u = url
        · subst hu
          have : findReq acc u = some rr := hf
          rw [h] at this
          cases this
        · have hstep : findReq (addToFirstMatching acc u i d) url = none := by
            rw [findReq_addToFirstMatching_ne _ _ _ _ _ hu, h]
          have := ih (i + 1) (addToFirstMatching acc u i d) evs url
            hstep hok
          rw [this]
          simp [membersFor, hu]
      | none =>
        rw [hf] at hok
        dsimp only at hok ⊢
        by_cases hu : u = ""
        · simp [Request.make, hu] at hok
        · simp only [Request.make, if_neg hu] at hok ⊢
          by_cases huu : u = url
          · subst huu
            have hxurl :
                ((Request.base Data u c).addUpdater i d).url = u := rfl
            have hstep :
                findReq (acc ++ [(Request.base Data u c).addUpdater i d])
                  u = some ((Request.base Data u c).addUpdater i d) := by
              rw [findReq_append_of_none _ _ _ h, if_pos hxurl]
            have := buildRequests_find_some c rest (i + 1) _ _ u _
              hstep hok
            rw [this]
            simp [membersFor, addAll_cons]
          · have hstep :
                findReq (acc ++ [(Request.base Data u c).addUpdater i d])
                  url = none := by
              rw [findReq_append_of_none _ _ _ h]
              have : ((Request.base Data u c).addUpdater i d).url ≠ url := huu
              rw [if_neg this]
            have := ih (i + 1) _ _ url hstep hok
            rw [this]
            simp [membersFor, huu]

theorem buildRequests_urls_nodup {Data : Type} (c : Nat)
    (results : List (UrlResult Data)) :
    ∀ (i : Nat) (acc : List (Request Data)) (evs : List (PoolEvent Data)),
      (acc.map Request.url).Nodup →
      (buildRequests c i results acc evs).2.2 = none →
      (((buildRequests c i results acc evs).1).map Request.url).Nodup := by
  induction results with
  | nil =>
    intro i acc evs h _
    simpa [buildRequests] using h
  | cons res rest ih =>
    intro i acc evs h hok
    match res with
    | .nullUrl =>
      simp only [buildRequests] at hok ⊢
      exact ih (i + 1) acc evs h hok
    | .nonString => simp [buildRequests] at hok
    | .str u d =>
      simp only [buildRequests] at hok ⊢
      cases hf : acc.find? (fun rr => rr.url == u) with
      | some rr =>
        rw [hf] at hok
        dsimp only at hok ⊢
        refine ih (i + 1) _ _ ?_ hok
        rw [addToFirstMatching_map_url]
        exact h
      | none =>
        rw [hf] at hok
        dsimp only at hok ⊢
        by_cases hu : u = ""
        · simp [Request.make, hu] at hok
        · simp only [Request.make, if_neg hu] at hok ⊢
          have hnotin : u ∉ acc.map Request.url := by
            intro hmem
            rcases List.mem_map.mp hmem with ⟨r0, hr0, hr0u⟩
            exact (findReq_eq_none acc u hf r0 hr0) hr0u
          refine ih (i + 1) _ _ ?_ hok
          rw [List.map_append]
          refine List.Nodup.append h (List.nodup_singleton _) ?_
          intro a ha hb
          have : a = u := by simpa using hb
          exact hnotin (this ▸ ha)

/-- An event is one of the two kinds a failed (or not-yet-dispatched)
cycle can emit: an abort of the previous controller or a request
construction.  `fetchStart` and `statusCall` events are not of this
shape. -/
def isConstructOrAbort {Data : Type} : PoolEvent Data → Bool
  | .abortSignal _ => true
  | .constructRequest _ _ => true
  | _ => false

theorem buildRequests_events_shape {Data : Type} (c : Nat)
    (results : List (UrlResult Data)) :
    ∀ (i : Nat) (acc : List (Request Data)) (evs : List (PoolEvent Data)),
      (∀ e ∈ evs, isConstructOrAbort e = true) →
      ∀ e ∈ (buildRequests c i results acc evs).2.1,
        isConstructOrAbort e = true := by
  induction results with
  | nil =>
    intro i acc evs h
    simpa [buildRequests] using h
  | cons res rest ih =>
    intro i acc evs h
    match res with
    | .nullUrl =>
      simp only [buildRequests]
      exact ih (i + 1) acc evs h
    | .nonString =>
      simp only [buildRequests]
      exact h
    | .str u d =>
      simp only [buildRequests]
      cases hf : acc.find? (fun rr => rr.url == u) with
      | some rr =>
        dsimp only
        exact ih (i + 1) _ _ h
      | none =>
        dsimp only
        by_cases hu : u = ""
        · simp only [Request.make, if_pos hu]
          exact h
        · simp only [Request.make, if_neg hu]
          refine ih (i + 1) _ _ ?_
          intro e he
          rcases List.mem_append.mp he with he | he
          · exact h e he
          · have : e = PoolEvent.constructRequest c u := by simpa using he
            subst this
            rfl

theorem buildRequests_error_of_empty {Data : Type} (c : Nat)
    (results : List (UrlResult Data)) (d0 : Option Data) :
    ∀ (i : Nat) (acc : List (Request Data)) (evs : List (PoolEvent Data)),
      (∀ r ∈ acc, r.url ≠ "") →
      UrlResult.str "" d0 ∈ results →
      (buildRequests c i results acc evs).2.2 ≠ none := by
  induction results with
  | nil =>
    intro i acc evs _ hmem
    cases hmem
  | cons res rest ih =>
    intro i acc evs hacc hmem
    match res with
    | .nullUrl =>
      simp only [buildRequests]
      have hmem' : UrlResult.str "" d0 ∈ rest := by
        rcases List.mem_cons.mp hmem with hh | hh
        · cases hh
        · exact hh
      exact ih (i + 1) acc evs hacc hmem'
    | .nonString => simp [buildRequests]
    | .str u d =>
      simp only [buildRequests]
      cases hf : acc.find? (fun rr => rr.url == u) with
      | some rr =>
        dsimp only
        have hinv : ∀ r ∈ addToFirstMatching acc u i d, r.url ≠ "" := by
          intro r hr
          have hmm : r.url ∈ (addToFirstMatching acc u i d).map Request.url :=
            List.mem_map_of_mem _ hr
          rw [addToFirstMatching_map_url] at hmm
          rcases List.mem_map.mp hmm with ⟨r0, hr0, he⟩
          exact he ▸ hacc r0 hr0
        rcases List.mem_cons.mp hmem with hh | hh
        · exfalso
          injection hh with h1 h2
          have hrr := findReq_mem acc u rr hf
          exact hacc rr hrr.1 (h1 ▸ hrr.2)
        · exact ih (i + 1) _ evs hinv hh
      | none =>
        dsimp only
        by_cases hu : u = ""
        · simp [Request.make, hu]
        · simp only [Request.make, if_neg hu]
          have hinv : ∀ r ∈ acc ++ [(Request.base Data u c).addUpdater i d],
              r.url ≠ "" := by
            intro r hr
            rcases List.mem_append.mp hr with hr | hr
            · exact hacc r hr
            · have : r = (Request.base Data u c).addUpdater i d := by
                simpa using hr
              subst this
              exact hu
          rcases List.mem_cons.mp hmem with hh | hh
          · exfalso
            injection hh with h1 h2
            exact hu h1.symm
          · exact ih (i + 1) _ _ hinv hh

theorem mem_findReq_of_nodup {Data : Type} (reqs : List (Request Data))
    (r : Request Data) (hnd : (reqs.map Request.url).Nodup) (hr : r ∈ reqs) :
    findReq reqs r.url = some r := by
  induction reqs with
  | nil => cases hr
  | cons x rest ih =>
    simp only [List.map_cons, List.nodup_cons] at hnd
    rcases List.mem_cons.mp hr with h | h
    · subst h
      simp [findReq_cons]
    · have hx : x.url ≠ r.url := by
        intro he
        exact hnd.1 (he ▸ List.mem_map_of_mem Request.url h)
      rw [findReq_cons, if_neg hx]
      exact ih hnd.2 h

theorem countP_url_eq_one {Data : Type} (reqs : List (Request Data))
    (u : String) (r : Request Data)
    (hnd : (reqs.map Request.url).Nodup) (h : findReq reqs u = some r) :
    reqs.countP (fun x => decide (x.url = u)) = 1 := by
  induction reqs with
  | nil => simp [findReq_nil] at h
  | cons x rest ih =>
    simp only [List.map_cons, List.nodup_cons] at hnd
    by_cases hx : x.url = u
    · have hzero : rest.countP (fun y => decide (y.url = u)) = 0 := by
        rw [List.countP_eq_zero]
        intro y hy
        simp only [decide_eq_true_eq]
        intro he
        exact hnd.1 (hx ▸ he ▸ List.mem_map_of_mem Request.url hy)
      simp [List.countP_cons, hx, hzero]
    · rw [findReq_cons, if_neg hx] at h
      simp [List.countP_cons, hx, ih hnd.2 h]

/-! Component equations for `loadContent`. -/

theorem loadContent_pool_eq {Config Data : Type} (p : RequestPool Config Data)
    (cfg : Config) : (p.loadContent cfg).pool = cyclePool p := by
  unfold RequestPool.loadContent
  rcases h : poolBuild p cfg with ⟨reqs, evs, err⟩
  cases err <;> rfl

theorem loadContent_error_eq {Config Data : Type}
    (p : RequestPool Config Data) (cfg : Config) :
    (p.loadContent cfg).error = (poolBuild p cfg).2.2 := by
  unfold RequestPool.loadContent
  rcases h : poolBuild p cfg with ⟨reqs, evs, err⟩
  cases err <;> rfl

theorem loadContent_requests_ok {Config Data : Type}
    (p : RequestPool Config Data) (cfg : Config)
    (hok : (poolBuild p cfg).2.2 = none) :
    (p.loadContent cfg).requests = (poolBuild p cfg).1 := by
  unfold RequestPool.loadContent
  rcases h : poolBuild p cfg with ⟨reqs, evs, err⟩
  rw [h] at hok
  cases err with
  | some e => cases hok
  | none => rfl

theorem loadContent_events_ok {Config Data : Type}
    (p : RequestPool Config Data) (cfg : Config)
    (hok : (poolBuild p cfg).2.2 = none) :
    (p.loadContent cfg).events =
      abortEvs p ++ (poolBuild p cfg).2.1
        ++ dispatchEvents (poolBuild p cfg).1 := by
  unfold RequestPool.loadContent
  rcases h : poolBuild p cfg with ⟨reqs, evs, err⟩
  rw [h] at hok
  cases err with
  | some e => cases hok
  | none => rfl

theorem loadContent_requests_err {Config Data : Type}
    (p : RequestPool Config Data) (cfg : Config) (e : JsError)
    (h : (poolBuild p cfg).2.2 = some e) :
    (p.loadContent cfg).requests = [] := by
  unfold RequestPool.loadContent
  rcases hb : poolBuild p cfg with ⟨reqs, evs, err⟩
  rw [hb] at h
  cases err with
  | some e => rfl
  | none => cases h

theorem loadContent_events_err {Config Data : Type}
    (p : RequestPool Config Data) (cfg : Config) (e : JsError)
    (h : (poolBuild p cfg).2.2 = some e) :
    (p.loadContent cfg).events = abortEvs p ++ (poolBuild p cfg).2.1 := by
  unfold RequestPool.loadContent
  rcases hb : poolBuild p cfg with ⟨reqs, evs, err⟩
  rw [hb] at h
  cases err with
  | some e => rfl
  | none => cases h

theorem loadContent_latest {Config Data : Type}
    (p : RequestPool Config Data) (cfg : Config) :
    (p.loadContent cfg).pool.latestAbortController =
      some p.nextControllerId := by
  rw [loadContent_pool_eq]
  rfl

/-! Pool-level consequences of the `buildRequests` characterization. -/

theorem pool_urls_nodup {Config Data : Type} (p : RequestPool Config Data)
    (cfg : Config) (hok : (p.loadContent cfg).error = none) :
    (((p.loadContent cfg).requests).map Request.url).Nodup := by
  rw [loadContent_error_eq] at hok
  rw [loadContent_requests_ok p cfg hok]
  exact buildRequests_urls_nodup p.nextControllerId (poolResults p cfg) 0
    [] [] (by simp) hok

theorem pool_findReq_members_nil {Config Data : Type}
    (p : RequestPool Config Data) (cfg : Config) (u : String)
    (hok : (p.loadContent cfg).error = none)
    (hm : membersFor u 0 (poolResults p cfg) = []) :
    findReq (p.loadContent cfg).requests u = none := by
  rw [loadContent_error_eq] at hok
  rw [loadContent_requests_ok p cfg hok]
  have := buildRequests_find_none p.nextControllerId (poolResults p cfg) 0
    [] [] u (findReq_nil u) hok
  rw [hm] at this
  exact this

theorem pool_findReq_members_cons {Config Data : Type}
    (p : RequestPool Config Data) (cfg : Config) (u : String)
    (m : Nat × Option Data) (ms : List (Nat × Option Data))
    (hok : (p.loadContent cfg).error = none)
    (hm : membersFor u 0 (poolResults p cfg) = m :: ms) :
    findReq (p.loadContent cfg).requests u =
      some ((Request.base Data u p.nextControllerId).addAll (m :: ms)) := by
  rw [loadContent_error_eq] at hok
  rw [loadContent_requests_ok p cfg hok]
  have := buildRequests_find_none p.nextControllerId (poolResults p cfg) 0
    [] [] u (findReq_nil u) hok
  rw [hm] at this
  exact this

theorem pool_request_char {Config Data : Type} (p : RequestPool Config Data)
    (cfg : Config) (r : Request Data)
    (hok : (p.loadContent cfg).error = none)
    (hr : r ∈ (p.loadContent cfg).requests) :
    r = (Request.base Data r.url p.nextControllerId).addAll
      (membersFor r.url 0 (poolResults p cfg)) := by
  have hfind : findReq (p.loadContent cfg).requests r.url = some r :=
    mem_findReq_of_nodup _ r (pool_urls_nodup p cfg hok) hr
  cases hm : membersFor r.url 0 (poolResults p cfg) with
  | nil =>
    rw [pool_findReq_members_nil p cfg r.url hok hm] at hfind
    cases hfind
  | cons m ms =>
    rw [pool_findReq_members_cons p cfg r.url m ms hok hm] at hfind
    exact (Option.some.injEq .. ▸ hfind).symm

theorem pool_request_updaters {Config Data : Type}
    (p : RequestPool Config Data) (cfg : Config) (r : Request Data)
    (hok : (p.loadContent cfg).error = none)
    (hr : r ∈ (p.loadContent cfg).requests) :
    r.updaters = (membersFor r.url 0 (poolResults p cfg)).map Prod.fst := by
  conv_lhs => rw [pool_request_char p cfg r hok hr]
  rw [addAll_updaters]
  rfl

theorem pool_request_signal {Config Data : Type}
    (p : RequestPool Config Data) (cfg : Config) (r : Request Data)
    (hok : (p.loadContent cfg).error = none)
    (hr : r ∈ (p.loadContent cfg).requests) :
    r.signal = p.nextControllerId := by
  conv_lhs => rw [pool_request_char p cfg r hok hr]
  rw [addAll_signal]
  rfl

theorem pool_request_count_one {Config Data : Type}
    (p : RequestPool Config Data) (cfg : Config) (r : Request Data)
    (k : Nat) (dk : Option Data)
    (hok : (p.loadContent cfg).error = none)
    (hr : r ∈ (p.loadContent cfg).requests)
    (hk : (poolResults p cfg).get? k = some (.str r.url dk)) :
    r.updaters.count k = 1 := by
  rw [pool_request_updaters p cfg r hok hr]
  have hmem : (k, dk) ∈ membersFor r.url 0 (poolResults p cfg) := by
    have := membersFor_of_get r.url (poolResults p cfg) 0 k dk hk
    simpa using this
  exact List.count_eq_one_of_mem
    (membersFor_keys_nodup r.url 0 (poolResults p cfg))
    (List.mem_map_of_mem Prod.fst hmem)

theorem pool_request_count_zero {Config Data : Type}
    (p : RequestPool Config Data) (cfg : Config) (r : Request Data) (k : Nat)
    (hok : (p.loadContent cfg).error = none)
    (hr : r ∈ (p.loadContent cfg).requests)
    (hk : ∀ dk : Option Data,
      (poolResults p cfg).get? k ≠ some (.str r.url dk)) :
    r.updaters.count k = 0 := by
  rw [pool_request_updaters p cfg r hok hr]
  rw [List.count_eq_zero]
  intro hmem
  rcases List.mem_map.mp hmem with ⟨⟨k0, d0⟩, hk0, hfst⟩
  have hk0' : k0 = k := hfst
  subst hk0'
  have := get_of_membersFor r.url (poolResults p cfg) 0 k0 d0 hk0
  rw [Nat.sub_zero] at this
  exact hk d0 this

theorem pool_request_data_get {Config Data : Type}
    (p : RequestPool Config Data) (cfg : Config) (r : Request Data)
    (k : Nat) (dk : Option Data)
    (hok : (p.loadContent cfg).error = none)
    (hr : r ∈ (p.loadContent cfg).requests)
    (hk : (poolResults p cfg).get? k = some (.str r.url dk)) :
    mapGet r.data k = some dk := by
  conv_lhs => rw [pool_request_char p cfg r hok hr]
  have hmem : (k, dk) ∈ membersFor r.url 0 (poolResults p cfg) := by
    have := membersFor_of_get r.url (poolResults p cfg) 0 k dk hk
    simpa using this
  exact addAll_data_get_mem _ _ k dk
    (membersFor_keys_nodup r.url 0 (poolResults p cfg)) hmem

/-! Computing `callsTo` over the cycle trace. -/

theorem callsTo_append {Data : Type} (k : Nat)
    (a b : List (PoolEvent Data)) :
    callsTo k (a ++ b) = callsTo k a ++ callsTo k b := by
  simp [callsTo, List.filterMap_append]

theorem callsTo_of_shape {Data : Type} (k : Nat)
    (evs : List (PoolEvent Data))
    (h : ∀ e ∈ evs, isConstructOrAbort e = true) : callsTo k evs = [] := by
  rw [callsTo, List.filterMap_eq_nil_iff]
  intro e he
  have := h e he
  cases e <;> simp_all [isConstructOrAbort]

theorem callsTo_abortEvs {Config Data : Type} (k : Nat)
    (p : RequestPool Config Data) : callsTo k (abortEvs p) = [] := by
  unfold abortEvs
  cases p.latestAbortController <;> rfl

theorem callsTo_statusCalls {Data : Type} (k : Nat) (ups : List Nat)
    (f : Nat → StatusUpdate Data) :
    callsTo k
        ((ups.map fun j => (j, f j)).map fun c =>
          PoolEvent.statusCall c.1 c.2) =
      List.replicate (ups.count k) (f k) := by
  induction ups with
  | nil => rfl
  | cons j rest ih =>
    simp only [List.map_cons, callsTo, List.filterMap_cons,
      List.filterMap_map] at ih ⊢
    by_cases hj : j = k
    · subst hj
      simp [ih, List.count_cons_self, List.replicate_succ]
    · have hkj : ¬k = j := fun h => hj h.symm
      simp [if_neg hj, ih, List.count_cons, hkj]

theorem callsTo_dispatchEvents {Data : Type} (k : Nat)
    (reqs : List (Request Data)) :
    callsTo k (dispatchEvents reqs) =
      reqs.flatMap fun r =>
        List.replicate (r.updaters.count k)
          (withData (loadingUpdate r.url) ((mapGet r.data k).join)) := by
  induction reqs with
  | nil => rfl
  | cons r rest ih =>
    simp only [dispatchEvents, List.flatMap_cons] at ih ⊢
    rw [List.cons_append]
    have h1 : ∀ evs : List (PoolEvent Data),
        callsTo k (PoolEvent.fetchStart r.url :: evs) = callsTo k evs := by
      intro evs
      simp [callsTo, List.filterMap_cons]
    rw [h1, callsTo_append, ih]
    have hform : r.callAllUpdaters (loadingUpdate r.url) =
        r.updaters.map fun j =>
          (j, withData (loadingUpdate r.url) ((mapGet r.data j).join)) := rfl
    rw [hform, callsTo_statusCalls]

theorem callsTo_completionEvents {Data : Type} (k : Nat)
    (reqs : List (Request Data)) (oracle : String → FetchOutcome) :
    callsTo k (completionEvents reqs oracle) =
      reqs.flatMap fun r =>
        match oracle r.url with
        | .response resp =>
          List.replicate (r.updaters.count k)
            (withData (terminalUpdate resp) ((mapGet r.data k).join))
        | _ => [] := by
  induction reqs with
  | nil => rfl
  | cons r rest ih =>
    simp only [completionEvents, List.flatMap_cons] at ih ⊢
    rw [callsTo_append, ih]
    congr 1
    cases ho : oracle r.url with
    | aborted => rfl
    | networkError => rfl
    | response resp =>
      dsimp only
      have hform : r.callAllUpdaters (terminalUpdate resp) =
          r.updaters.map fun j =>
            (j, withData (terminalUpdate resp) ((mapGet r.data j).join)) := rfl
      rw [hform, callsTo_statusCalls]

theorem flatMap_eq_replicate_single {α β : Type} (l : List α) (p : α → Bool)
    (g : α → List β) (x : β)
    (h0 : ∀ a ∈ l, p a = false → g a = [])
    (h1 : ∀ a ∈ l, p a = true → g a = [x]) :
    l.flatMap g = List.replicate (l.countP p) x := by
  induction l with
  | nil => rfl
  | cons a rest ih =>
    have ih' := ih (fun b hb => h0 b (List.mem_cons_of_mem _ hb))
      (fun b hb => h1 b (List.mem_cons_of_mem _ hb))
    simp only [List.flatMap_cons, List.countP_cons]
    cases hp : p a
    · rw [h0 a (List.mem_cons_self ..) hp, ih']
      simp
    · rw [h1 a (List.mem_cons_self ..) hp, ih']
      simp [List.replicate_succ]

theorem flatMap_eq_nil_of_forall {α β : Type} (l : List α) (g : α → List β)
    (h : ∀ a ∈ l, g a = []) : l.flatMap g = [] := by
  induction l with
  | nil => rfl
  | cons a rest ih =>
    rw [List.flatMap_cons, h a (List.mem_cons_self ..),
      ih fun b hb => h b (List.mem_cons_of_mem _ hb)]
    rfl

/-- The complete sequence of status updates a producer receives during one
cycle in which its `getRequestConfig` returned the URL string `u` with
auxiliary data `d`: one loading update (with `u` and `d`), followed by one
terminal update exactly when the fetch for `u` resolves with a response. -/
theorem callsTo_cycleTrace_str {Config Data : Type}
    (p : RequestPool Config Data) (cfg : Config)
    (oracle : String → FetchOutcome) (k : Nat) (u : String) (d : Option Data)
    (hk : (poolResults p cfg).get? k = some (.str u d))
    (hok : (p.loadContent cfg).error = none) :
    callsTo k (cycleTrace p cfg oracle) =
      withData (loadingUpdate u) d ::
        (match oracle u with
         | .response resp => [withData (terminalUpdate resp) d]
         | _ => []) := by
  have hok' : (poolBuild p cfg).2.2 = none := by
    rw [← loadContent_error_eq]; exact hok
  have hnd := pool_urls_nodup p cfg hok
  have hmem : (k, d) ∈ membersFor u 0 (poolResults p cfg) := by
    simpa using membersFor_of_get u (poolResults p cfg) 0 k d hk
  have hcount1 : ∀ r ∈ (p.loadContent cfg).requests, r.url = u →
      r.updaters.count k = 1 := by
    intro r hr hru
    exact pool_request_count_one p cfg r k d hok hr (hru ▸ hk)
  have hdata : ∀ r ∈ (p.loadContent cfg).requests, r.url = u →
      mapGet r.data k = some d := by
    intro r hr hru
    exact pool_request_data_get p cfg r k d hok hr (hru ▸ hk)
  have hcount0 : ∀ r ∈ (p.loadContent cfg).requests, r.url ≠ u →
      r.updaters.count k = 0 := by
    intro r hr hru
    refine pool_request_count_zero p cfg r k hok hr ?_
    intro dk hcontra
    rw [hk] at hcontra
    injection hcontra with h1
    injection h1 with h2 h3
    exact hru h2.symm
  have hcountP : ((p.loadContent cfg).requests).countP
      (fun r => decide (r.url = u)) = 1 := by
    cases hm : membersFor u 0 (poolResults p cfg) with
    | nil =>
      rw [hm] at hmem
      cases hmem
    | cons m ms =>
      exact countP_url_eq_one _ u _ hnd
        (pool_findReq_members_cons p cfg u m ms hok hm)
  have hdisp : callsTo k (dispatchEvents (p.loadContent cfg).requests) =
      [withData (loadingUpdate u) d] := by
    rw [callsTo_dispatchEvents]
    rw [flatMap_eq_replicate_single _ (fun r => decide (r.url = u)) _
      (withData (loadingUpdate u) d) ?_ ?_, hcountP]
    · rfl
    · intro r hr hpr
      rw [hcount0 r hr (by simpa using hpr)]
      rfl
    · intro r hr hpr
      have hru : r.url = u := by simpa using hpr
      rw [hcount1 r hr hru, hdata r hr hru, hru]
      rfl
  have hcomp :
      callsTo k (completionEvents (p.loadContent cfg).requests oracle) =
      (match oracle u with
       | .response resp => [withData (terminalUpdate resp) d]
       | _ => []) := by
    rw [callsTo_completionEvents]
    cases horacle : oracle u with
    | response resp =>
      rw [flatMap_eq_replicate_single _ (fun r => decide (r.url = u)) _
        (withData (terminalUpdate resp) d) ?_ ?_, hcountP]
      · rfl
      · intro r hr hpr
        have hru : r.url ≠ u := by simpa using hpr
        cases ho : oracle r.url with
        | response resp2 =>
          dsimp only
          rw [hcount0 r hr hru]
          rfl
        | aborted => rfl
        | networkError => rfl
      · intro r hr hpr
        have hru : r.url = u := by simpa using hpr
        rw [hru, horacle]
        dsimp only
        rw [hcount1 r hr hru, hdata r hr hru]
        rfl
    | aborted =>
      apply flatMap_eq_nil_of_forall
      intro r hr
      by_cases hru : r.url = u
      · rw [hru, horacle]
      · cases ho : oracle r.url with
        | response resp2 =>
          dsimp only
          rw [hcount0 r hr hru]
          rfl
        | aborted => rfl
        | networkError => rfl
    | networkError =>
      apply flatMap_eq_nil_of_forall
      intro r hr
      by_cases hru : r.url = u
      · rw [hru, horacle]
      · cases ho : oracle r.url with
        | response resp2 =>
          dsimp only
          rw [hcount0 r hr hru]
          rfl
        | aborted => rfl
        | networkError => rfl
  have hshape : ∀ e ∈ (poolBuild p cfg).2.1, isConstructOrAbort e = true :=
    buildRequests_events_shape p.nextControllerId (poolResults p cfg) 0 [] []
      (by simp)
  unfold cycleTrace
  rw [loadContent_events_ok p cfg hok', ← loadContent_requests_ok p cfg hok',
    callsTo_append, callsTo_append, callsTo_append, callsTo_abortEvs,
    callsTo_of_shape k _ hshape, hdisp, hcomp]
  rfl

/-- A producer whose `getRequestConfig` returned `null` receives no status
update at all during that cycle, whether or not the cycle throws. -/
theorem callsTo_cycleTrace_null {Config Data : Type}
    (p : RequestPool Config Data) (cfg : Config)
    (oracle : String → FetchOutcome) (k : Nat)
    (hk : (poolResults p cfg).get? k = some .nullUrl) :
    callsTo k (cycleTrace p cfg oracle) = [] := by
  have hshape : ∀ e ∈ (poolBuild p cfg).2.1, isConstructOrAbort e = true :=
    buildRequests_events_shape p.nextControllerId (poolResults p cfg) 0 [] []
      (by simp)
  cases herr : (p.loadContent cfg).error with
  | some e =>
    have herr' : (poolBuild p cfg).2.2 = some e := by
      rw [← loadContent_error_eq]; exact herr
    unfold cycleTrace
    rw [loadContent_events_err p cfg e herr',
      loadContent_requests_err p cfg e herr', callsTo_append, callsTo_append,
      callsTo_abortEvs, callsTo_of_shape k _ hshape]
    rfl
  | none =>
    have hok' : (poolBuild p cfg).2.2 = none := by
      rw [← loadContent_error_eq]; exact herr
    have hcount0 : ∀ r ∈ (p.loadContent cfg).requests,
        r.updaters.count k = 0 := by
      intro r hr
      refine pool_request_count_zero p cfg r k herr hr ?_
      intro dk hcontra
      rw [hk] at hcontra
      cases hcontra
    have hdisp : callsTo k (dispatchEvents (p.loadContent cfg).requests)
        = [] := by
      rw [callsTo_dispatchEvents]
      apply flatMap_eq_nil_of_forall
      intro r hr
      rw [hcount0 r hr]
      rfl
    have hcomp :
        callsTo k (completionEvents (p.loadContent cfg).requests oracle)
          = [] := by
      rw [callsTo_completionEvents]
      apply flatMap_eq_nil_of_forall
      intro r hr
      cases ho : oracle r.url with
      | response resp =>
        dsimp only
        rw [hcount0 r hr]
        rfl
      | aborted => rfl
      | networkError => rfl
    unfold cycleTrace
    rw [loadContent_events_ok p cfg hok', ← loadContent_requests_ok p cfg hok',
      callsTo_append, callsTo_append, callsTo_append, callsTo_abortEvs,
      callsTo_of_shape k _ hshape, hdisp, hcomp]
    rfl

/-- Recognizer for the `fetchStart` event of a given URL. -/
def isFetchStartFor {Data : Type} (u : String) : PoolEvent Data → Bool
  | .fetchStart u2 => decide (u2 = u)
  | _ => false

theorem countP_fetchStart_dispatch {Data : Type} (reqs : List (Request Data))
    (u : String) :
    (dispatchEvents reqs).countP (isFetchStartFor u) =
      reqs.countP fun r => decide (r.url = u) := by
  induction reqs with
  | nil => rfl
  | cons r rest ih =>
    have h0 : ((r.callAllUpdaters (loadingUpdate r.url)).map fun c =>
        PoolEvent.statusCall c.1 c.2).countP (isFetchStartFor u) = 0 := by
      rw [List.countP_eq_zero]
      intro e he
      rcases List.mem_map.mp he with ⟨c, _, rfl⟩
      simp [isFetchStartFor]
    simp only [dispatchEvents, List.flatMap_cons, List.cons_append,
      List.countP_cons, List.countP_append] at ih ⊢
    rw [h0, ih]
    have heq : @isFetchStartFor Data u (PoolEvent.fetchStart r.url) =
        decide (r.url = u) := rfl
    rw [heq]
    omega

theorem countP_fetchStart_of_shape {Data : Type} (u : String)
    (evs : List (PoolEvent Data))
    (h : ∀ e ∈ evs, isConstructOrAbort e = true) :
    evs.countP (isFetchStartFor u) = 0 := by
  rw [List.countP_eq_zero]
  intro e he
  have := h e he
  cases e <;> simp_all [isConstructOrAbort, isFetchStartFor]

theorem pool_countP_fetchStart {Config Data : Type}
    (p : RequestPool Config Data) (cfg : Config) (u : String)
    (hok : (p.loadContent cfg).error = none) :
    ((p.loadContent cfg).events).countP (isFetchStartFor u) =
      ((p.loadContent cfg).requests).countP fun r => decide (r.url = u) := by
  have hok' : (poolBuild p cfg).2.2 = none := by
    rw [← loadContent_error_eq]; exact hok
  have h1 : (abortEvs p).countP (isFetchStartFor u) = 0 := by
    unfold abortEvs
    cases p.latestAbortController <;> rfl
  have h2 : ((poolBuild p cfg).2.1).countP (isFetchStartFor u) = 0 :=
    countP_fetchStart_of_shape u _
      (buildRequests_events_shape p.nextControllerId (poolResults p cfg) 0
        [] [] (by simp))
  rw [loadContent_events_ok p cfg hok', ← loadContent_requests_ok p cfg hok',
    List.countP_append, List.countP_append, h1, h2,
    countP_fetchStart_dispatch]
  omega

/-! Concrete fixtures used by counterexamples and witnesses. -/

/-- A registered updater whose `getRequestConfig` constantly returns the
given result (a concrete test producer; `Config` and `Data` are `Nat`). -/
def constUpdater (res : UrlResult Nat) : Updater Nat Nat :=
  { getRequestConfig := fun _ => res }

/-- One producer returning the URL `/a` with no auxiliary data. -/
def poolSingle : RequestPool Nat Nat :=
  (RequestPool.new Nat Nat).addUpdater (constUpdater (.str "/a" none))

/-- Two producers whose URL assembly returns the identical URL `/a`, with
auxiliary data `1` and `2`. -/
def poolDedup : RequestPool Nat Nat :=
  ((RequestPool.new Nat Nat).addUpdater
    (constUpdater (.str "/a" (some 1)))).addUpdater
    (constUpdater (.str "/a" (some 2)))

/-- A producer returning `/a` registered before a producer returning the
empty-string URL (which the `Request` constructor rejects). -/
def poolEmptyUrl : RequestPool Nat Nat :=
  ((RequestPool.new Nat Nat).addUpdater
    (constUpdater (.str "/a" none))).addUpdater (constUpdater (.str "" none))

/-- A producer opting out (`null` URL) registered before a producer
returning `/b`. -/
def poolNullMix : RequestPool Nat Nat :=
  ((RequestPool.new Nat Nat).addUpdater
    (constUpdater .nullUrl)).addUpdater (constUpdater (.str "/b" none))

/-- A 200 response with body `X`. -/
def respOk : HttpResponse := { ok := true, statusCode := 200, bodyText := "X" }

/-- The network oracle that resolves every URL with `respOk`. -/
def oracleOk : String → FetchOutcome := fun _ => .response respOk

/-- The request of `poolSingle`'s first cycle, as `loadContent` builds it. -/
def reqA : Request Nat :=
  { url := "/a", signal := 0, updaters := [0], data := [(0, none)] }

/-- A request for `/a` with one registered updater carrying data `7`. -/
def reqSeven : Request Nat := (Request.base Nat "/a" 0).addUpdater 0 (some 7)

/-! C10 -/

/-- C10: calling `addUpdater` twice with the same handler function (key
`k`) and two different data values registers the handler twice — it is
invoked twice per status update — but both invocations receive the data of
the second registration, because the per-handler `Map` entry keyed by the
handler's function identity is overwritten on re-registration. -/
theorem duplicate_updater_gets_latest_data {Data : Type} (url : String)
    (signal k : Nat) (d1 d2 : Data) (resp : HttpResponse) :
    (((Request.base Data url signal).addUpdater k (some d1)).addUpdater k
        (some d2)).updaters = [k, k]
    ∧ mapGet (((Request.base Data url signal).addUpdater k
        (some d1)).addUpdater k (some d2)).data k = some (some d2)
    ∧ ((((Request.base Data url signal).addUpdater k (some d1)).addUpdater k
        (some d2)).fetch (.response resp)).1 =
      [(k, withData (loadingUpdate url) (some d2)),
       (k, withData (loadingUpdate url) (some d2)),
       (k, withData (terminalUpdate resp) (some d2)),
       (k, withData (terminalUpdate resp) (some d2))] := by
  refine ⟨rfl, ?_, ?_⟩
  · simp [Request.base, Request.addUpdater, mapSet, mapGet]
  · simp [Request.base, Request.addUpdater, Request.fetch,
      Request.callAllUpdaters, mapSet, mapGet, withData]

/-! C4 -/

/-- C4 counterexample: a Transport for `/a` with one handler (auxiliary
data `7`) whose fetch resolves 200/`X`.  The delivered terminal update is
`\x7b status: 'loaded', response, content, data \x7d` with `url = none`:
the terminal update does **not** contain the `url` field, refuting the
claim that every terminal status update contains `url`. -/
theorem terminal_update_lacks_url :
    (reqSeven.fetch (.response respOk)).1 =
      [(0, { status := Status.loading, url := some "/a", response := none,
             content := none, data := some 7 }),
       (0, { status := Status.loaded, url := none, response := some respOk,
             content := some "X", data := some 7 })] := by decide

/-- C4 amended: every update a Transport delivers is either the loading
update (status 'loading', with the URL, no response/content) or the
terminal update, which carries the status ('loaded' iff `response.ok`),
the HTTP response object, the body text as content and the handler's
auxiliary data — but no `url` field (`url = none`); the URL is present
only on the loading update. -/
theorem terminal_update_shape {Data : Type} (r : Request Data)
    (resp : HttpResponse) (k : Nat) (upd : StatusUpdate Data)
    (h : (k, upd) ∈ (r.fetch (.response resp)).1) :
    (upd.status = Status.loading ∧ upd.url = some r.url
      ∧ upd.response = none ∧ upd.content = none
      ∧ upd.data = (mapGet r.data k).join)
    ∨ (upd.status = (if resp.ok then Status.loaded else Status.failed)
      ∧ upd.url = none ∧ upd.response = some resp
      ∧ upd.content = some resp.bodyText
      ∧ upd.data = (mapGet r.data k).join) := by
  have h' : (k, upd) ∈ r.callAllUpdaters (loadingUpdate r.url)
      ++ r.callAllUpdaters (terminalUpdate resp) := h
  rcases List.mem_append.mp h' with hm | hm
  · left
    rcases List.mem_map.mp hm with ⟨k0, _, heq⟩
    injection heq with h1 h2
    subst h1
    subst h2
    exact ⟨rfl, rfl, rfl, rfl, rfl⟩
  · right
    rcases List.mem_map.mp hm with ⟨k0, _, heq⟩
    injection heq with h1 h2
    subst h1
    subst h2
    exact ⟨rfl, rfl, rfl, rfl, rfl⟩

/-- The terminal update `reqSeven`'s fetch delivers on a 200/`X` response. -/
def updSeven : StatusUpdate Nat :=
  { status := Status.loaded, url := none, response := some respOk,
    content := some "X", data := some 7 }

/-- Witness for the amended C4 theorem at a concrete input. -/
theorem terminal_update_shape_witness :
    (updSeven.status = Status.loading ∧ updSeven.url = some reqSeven.url
      ∧ updSeven.response = none ∧ updSeven.content = none
      ∧ updSeven.data = (mapGet reqSeven.data 0).join)
    ∨ (updSeven.status = (if respOk.ok then Status.loaded else Status.failed)
      ∧ updSeven.url = none ∧ updSeven.response = some respOk
      ∧ updSeven.content = some respOk.bodyText
      ∧ updSeven.data = (mapGet reqSeven.data 0).join) :=
  terminal_update_shape reqSeven respOk 0 updSeven (by decide)

/-! C1 -/

/-- C1: for every cycle in which two distinct registered producers' URL
assembly returns the identical URL string `u` (and the cycle dispatches
without throwing), exactly one Request with URL `u` exists among the
cycle's requests, its fetch is started exactly once, and — the fetch for
`u` resolving with a response — every producer mapped to `u` receives both
the loading update and the terminal update of that single Request. -/
theorem dedup_one_transport_fanout {Config Data : Type}
    (p : RequestPool Config Data) (cfg : Config)
    (oracle : String → FetchOutcome) (u : String) (i j : Nat)
    (di dj : Option Data) (resp : HttpResponse)
    (hij : i ≠ j)
    (hi : (poolResults p cfg).get? i = some (.str u di))
    (hj : (poolResults p cfg).get? j = some (.str u dj))
    (hok : (p.loadContent cfg).error = none)
    (hresp : oracle u = .response resp) :
    ((p.loadContent cfg).requests.countP fun r => decide (r.url = u)) = 1
    ∧ ((p.loadContent cfg).events.countP (isFetchStartFor u)) = 1
    ∧ (∀ k d, (poolResults p cfg).get? k = some (.str u d) →
        callsTo k (cycleTrace p cfg oracle) =
          [withData (loadingUpdate u) d, withData (terminalUpdate resp) d]) := by
  have hmem : (i, di) ∈ membersFor u 0 (poolResults p cfg) := by
    simpa using membersFor_of_get u (poolResults p cfg) 0 i di hi
  have hcountP : ((p.loadContent cfg).requests.countP
      fun r => decide (r.url = u)) = 1 := by
    cases hm : membersFor u 0 (poolResults p cfg) with
    | nil =>
      rw [hm] at hmem
      cases hmem
    | cons m ms =>
      exact countP_url_eq_one _ u _ (pool_urls_nodup p cfg hok)
        (pool_findReq_members_cons p cfg u m ms hok hm)
  refine ⟨hcountP, ?_, ?_⟩
  · rw [pool_countP_fetchStart p cfg u hok]
    exact hcountP
  · intro k d hk
    rw [callsTo_cycleTrace_str p cfg oracle k u d hk hok, hresp]

/-- Witness for C1: the two producers of `poolDedup` both return `/a`. -/
theorem dedup_one_transport_fanout_witness :
    ((poolDedup.loadContent 0).requests.countP
      fun r => decide (r.url = "/a")) = 1
    ∧ ((poolDedup.loadContent 0).events.countP (isFetchStartFor "/a")) = 1
    ∧ (∀ k d, (poolResults poolDedup 0).get? k = some (.str "/a" d) →
        callsTo k (cycleTrace poolDedup 0 oracleOk) =
          [withData (loadingUpdate "/a") d,
           withData (terminalUpdate respOk) d]) :=
  dedup_one_transport_fanout poolDedup 0 oracleOk "/a" 0 1 (some 1) (some 2)
    respOk (by decide) (by decide) (by decide) (by decide) (by decide)

/-! C2 -/

/-- C2: for two successive `loadContent` calls, the request `r` of the
first cycle is bound to the first cycle's fresh controller, the very first
event of the second call is the abort of exactly that controller — so the
abort happens strictly before any request of the second cycle is
constructed or dispatched — and a fetch aborted before settling delivers
no terminal update to any of its handlers (every update it ever delivered
has status 'loading'). -/
theorem abort_precedes_next_cycle {Config Data : Type}
    (p : RequestPool Config Data) (cfg1 cfg2 : Config)
    (oracle : String → FetchOutcome) (r : Request Data)
    (hr : r ∈ (p.loadContent cfg1).requests)
    (hab : oracle r.url = .aborted) :
    r.signal = p.nextControllerId
    ∧ (∃ rest, ((p.loadContent cfg1).pool.loadContent cfg2).events =
        PoolEvent.abortSignal p.nextControllerId :: rest)
    ∧ (∀ k upd, (k, upd) ∈ (r.fetch (oracle r.url)).1 →
        upd.status = Status.loading) := by
  have hok : (p.loadContent cfg1).error = none := by
    cases herr : (p.loadContent cfg1).error with
    | none => rfl
    | some e =>
      rw [loadContent_requests_err p cfg1 e
        (by rw [← loadContent_error_eq]; exact herr)] at hr
      cases hr
  have hlatest : (p.loadContent cfg1).pool.latestAbortController =
      some p.nextControllerId := loadContent_latest p cfg1
  have habort : abortEvs (p.loadContent cfg1).pool =
      [PoolEvent.abortSignal p.nextControllerId] := by
    unfold abortEvs
    rw [hlatest]
  refine ⟨pool_request_signal p cfg1 r hok hr, ?_, ?_⟩
  · cases herr2 : (poolBuild (p.loadContent cfg1).pool cfg2).2.2 with
    | some e =>
      refine ⟨(poolBuild (p.loadContent cfg1).pool cfg2).2.1, ?_⟩
      rw [loadContent_events_err _ cfg2 e herr2, habort]
      rfl
    | none =>
      refine ⟨(poolBuild (p.loadContent cfg1).pool cfg2).2.1 ++
        dispatchEvents (poolBuild (p.loadContent cfg1).pool cfg2).1, ?_⟩
      rw [loadContent_events_ok _ cfg2 herr2, habort]
      simp
  · intro k upd hmem
    rw [hab] at hmem
    have hmem' : (k, upd) ∈ r.callAllUpdaters (loadingUpdate r.url) := hmem
    rcases List.mem_map.mp hmem' with ⟨k0, _, heq⟩
    injection heq with h1 h2
    subst h2
    rfl

/-- Witness for C2: `poolSingle`'s only request, cancelled by a second
`loadContent` call before its fetch settles. -/
theorem abort_precedes_next_cycle_witness :
    reqA.signal = poolSingle.nextControllerId
    ∧ (∃ rest, ((poolSingle.loadContent 0).pool.loadContent 1).events =
        PoolEvent.abortSignal poolSingle.nextControllerId :: rest)
    ∧ (∀ k upd, (k, upd) ∈ (reqA.fetch FetchOutcome.aborted).1 →
        upd.status = Status.loading) :=
  abort_precedes_next_cycle poolSingle 0 1 (fun _ => .aborted) reqA
    (by decide) (by decide)

/-! C3 -/

/-- C3 counterexample: `poolSingle`'s producer (registry index 0) returns
the non-null URL `/a`, but the cycle's fetch is aborted before settling —
what happens to every superseded cycle.  The producer receives exactly one
status update, the loading update: no terminal ('loaded'/'failed') update
is ever delivered, refuting the claim that in **every** cycle (including
superseded ones and network-failed ones) a non-null producer receives
exactly one terminal update after 'loading'. -/
theorem superseded_cycle_drops_terminal :
    callsTo 0 (cycleTrace poolSingle 0 (fun _ => FetchOutcome.aborted)) =
      [{ status := Status.loading, url := some "/a", response := none,
         content := none, data := none }] := by decide

/-- C3 amended: restricted to cycle/URL pairs whose fetch settles with an
HTTP response (not aborted by a later cycle, no network-level rejection),
every producer whose URL assembly returned that URL receives the loading
update first and exactly one terminal update after it, in that order. -/
theorem loading_then_one_terminal_when_settled {Config Data : Type}
    (p : RequestPool Config Data) (cfg : Config)
    (oracle : String → FetchOutcome) (k : Nat) (u : String) (d : Option Data)
    (resp : HttpResponse)
    (hk : (poolResults p cfg).get? k = some (.str u d))
    (hok : (p.loadContent cfg).error = none)
    (hresp : oracle u = .response resp) :
    callsTo k (cycleTrace p cfg oracle) =
      [withData (loadingUpdate u) d, withData (terminalUpdate resp) d] := by
  rw [callsTo_cycleTrace_str p cfg oracle k u d hk hok, hresp]

/-- Witness for the amended C3 theorem at a concrete input. -/
theorem loading_then_one_terminal_when_settled_witness :
    callsTo 0 (cycleTrace poolSingle 0 oracleOk) =
      [withData (loadingUpdate "/a") none,
       withData (terminalUpdate respOk) none] :=
  loading_then_one_terminal_when_settled poolSingle 0 oracleOk 0 "/a" none
    respOk (by decide) (by decide) (by decide)

/-! C5 -/

/-- C5 counterexample: `poolSingle`'s cycle is superseded, so its one
fetch rejects with the abort error.  `RequestPool.loadContent` dispatches
with `requests.forEach((request) => request.fetch())` and attaches no
rejection handler, and `Request.fetch` has no `try`/`catch`, so the
rejection is **not** discarded: exactly one unhandled rejection escapes
the dispatch path, refuting the claim that no unhandled rejection escapes
`RequestPool.loadContent`. -/
theorem aborted_rejection_escapes :
    uncaughtRejections (poolSingle.loadContent 0).requests
      (fun _ => FetchOutcome.aborted) = [JsError.abortErr] := by decide

/-- C5 amended: when a Request's fetch is aborted before settling, no
terminal callback is invoked (every update that fetch delivered has
status 'loading') — but the resulting rejected operation is not discarded
by the orchestrator: the fetch rejects with the abort error and that
rejection escapes the dispatch path as an unhandled rejection. -/
theorem aborted_fetch_silent_but_unhandled {Config Data : Type}
    (p : RequestPool Config Data) (cfg : Config)
    (oracle : String → FetchOutcome) (r : Request Data)
    (hr : r ∈ (p.loadContent cfg).requests)
    (hab : oracle r.url = .aborted) :
    (∀ k upd, (k, upd) ∈ (r.fetch (oracle r.url)).1 →
      upd.status = Status.loading)
    ∧ (r.fetch (oracle r.url)).2 = .error .abortErr
    ∧ JsError.abortErr ∈
        uncaughtRejections (p.loadContent cfg).requests oracle := by
  refine ⟨?_, by rw [hab]; rfl, ?_⟩
  · intro k upd hmem
    rw [hab] at hmem
    have hmem' : (k, upd) ∈ r.callAllUpdaters (loadingUpdate r.url) := hmem
    rcases List.mem_map.mp hmem' with ⟨k0, _, heq⟩
    injection heq with h1 h2
    subst h2
    rfl
  · refine List.mem_filterMap.mpr ⟨r, hr, ?_⟩
    rw [hab]; rfl

/-- Witness for the amended C5 theorem at a concrete input. -/
theorem aborted_fetch_silent_but_unhandled_witness :
    (∀ k upd, (k, upd) ∈ (reqA.fetch FetchOutcome.aborted).1 →
      upd.status = Status.loading)
    ∧ (reqA.fetch FetchOutcome.aborted).2 = .error .abortErr
    ∧ JsError.abortErr ∈
        uncaughtRejections (poolSingle.loadContent 0).requests
          (fun _ => FetchOutcome.aborted) :=
  aborted_fetch_silent_but_unhandled poolSingle 0 (fun _ => .aborted) reqA
    (by decide) (by decide)

/-! C6 -/

/-- C6 counterexample: `poolSingle`'s one fetch rejects with a
network-level error (DNS failure / offline).  The handler receives only
the loading update — never a 'failed' update — and the error escapes as an
unhandled rejection, refuting the claim that network-level failures are
surfaced as 'failed' updates and never propagate as rejected errors. -/
theorem network_error_yields_no_failed_update :
    callsTo 0 (cycleTrace poolSingle 0 (fun _ => FetchOutcome.networkError)) =
      [{ status := Status.loading, url := some "/a", response := none,
         content := none, data := none }]
    ∧ uncaughtRejections (poolSingle.loadContent 0).requests
        (fun _ => FetchOutcome.networkError) = [JsError.networkErr] := by
  decide

/-- C6 amended: a non-cancellation network-level failure (DNS, offline)
produces **no** status update at all: the fetch delivers only the loading
update, rejects with the network error, and that rejection escapes the
dispatch path unhandled — exactly like cancellation.  (A 'failed' update
is delivered only when the fetch resolves with a non-ok HTTP response.) -/
theorem network_error_rejects_unhandled {Config Data : Type}
    (p : RequestPool Config Data) (cfg : Config)
    (oracle : String → FetchOutcome) (r : Request Data)
    (hr : r ∈ (p.loadContent cfg).requests)
    (hnet : oracle r.url = .networkError) :
    (∀ k upd, (k, upd) ∈ (r.fetch (oracle r.url)).1 →
      upd.status = Status.loading)
    ∧ (r.fetch (oracle r.url)).2 = .error .networkErr
    ∧ JsError.networkErr ∈
        uncaughtRejections (p.loadContent cfg).requests oracle := by
  refine ⟨?_, by rw [hnet]; rfl, ?_⟩
  · intro k upd hmem
    rw [hnet] at hmem
    have hmem' : (k, upd) ∈ r.callAllUpdaters (loadingUpdate r.url) := hmem
    rcases List.mem_map.mp hmem' with ⟨k0, _, heq⟩
    injection heq with h1 h2
    subst h2
    rfl
  · refine List.mem_filterMap.mpr ⟨r, hr, ?_⟩
    rw [hnet]; rfl

/-- Witness for the amended C6 theorem at a concrete input. -/
theorem network_error_rejects_unhandled_witness :
    (∀ k upd, (k, upd) ∈ (reqA.fetch FetchOutcome.networkError).1 →
      upd.status = Status.loading)
    ∧ (reqA.fetch FetchOutcome.networkError).2 = .error .networkErr
    ∧ JsError.networkErr ∈
        uncaughtRejections (poolSingle.loadContent 0).requests
          (fun _ => FetchOutcome.networkError) :=
  network_error_rejects_unhandled poolSingle 0 (fun _ => .networkError) reqA
    (by decide) (by decide)

/-! C7 -/

/-- C7 counterexample: `poolEmptyUrl` has a producer returning `/a`
followed by a producer returning the empty-string URL, which the `Request`
constructor rejects.  `loadContent` throws the constructor's error after
the `/a` Request was already constructed, and because the throw propagates
out of the grouping reduce, the `forEach` dispatch line is never reached:
the cycle's event list is just the one construction — the `/a` group's
fetch is **not** dispatched, refuting per-URL-group isolation. -/
theorem empty_url_aborts_whole_cycle :
    (poolEmptyUrl.loadContent 0).error = some JsError.invalidUrl
    ∧ (poolEmptyUrl.loadContent 0).requests = []
    ∧ (poolEmptyUrl.loadContent 0).events =
        [PoolEvent.constructRequest 0 "/a"] := by decide

/-- C7 amended: when any producer of a cycle returns the empty-string URL
(which makes Transport construction fail synchronously), the **whole**
cycle is aborted: `loadContent` throws, no Request of that cycle is
dispatched — not even the other URL-groups' — and no fetch or status
event occurs (every event of the cycle is an abort or a construction). -/
theorem construction_failure_aborts_cycle {Config Data : Type}
    (p : RequestPool Config Data) (cfg : Config) (d0 : Option Data)
    (hmem : UrlResult.str "" d0 ∈ poolResults p cfg) :
    (p.loadContent cfg).error ≠ none
    ∧ (p.loadContent cfg).requests = []
    ∧ ∀ e ∈ (p.loadContent cfg).events, isConstructOrAbort e = true := by
  have herr : (poolBuild p cfg).2.2 ≠ none :=
    buildRequests_error_of_empty p.nextControllerId (poolResults p cfg) d0 0
      [] [] (by simp) hmem
  obtain ⟨e, he⟩ : ∃ e, (poolBuild p cfg).2.2 = some e := by
    cases h : (poolBuild p cfg).2.2 with
    | none => exact absurd h herr
    | some e => exact ⟨e, rfl⟩
  refine ⟨?_, loadContent_requests_err p cfg e he, ?_⟩
  · rw [loadContent_error_eq, he]
    simp
  · rw [loadContent_events_err p cfg e he]
    intro ev hev
    rcases List.mem_append.mp hev with h | h
    · unfold abortEvs at h
      cases hc : p.latestAbortController with
      | none =>
        rw [hc] at h
        cases h
      | some c =>
        rw [hc] at h
        have hev' : ev = PoolEvent.abortSignal c := by simpa using h
        subst hev'
        rfl
    · exact buildRequests_events_shape p.nextControllerId (poolResults p cfg)
        0 [] [] (by simp) ev h

/-- Witness for the amended C7 theorem at a concrete input. -/
theorem construction_failure_aborts_cycle_witness :
    (poolEmptyUrl.loadContent 0).error ≠ none
    ∧ (poolEmptyUrl.loadContent 0).requests = []
    ∧ ∀ e ∈ (poolEmptyUrl.loadContent 0).events,
        isConstructOrAbort e = true :=
  construction_failure_aborts_cycle poolEmptyUrl 0 none (by decide)

/-! C8 -/

/-- C8: the auxiliary data value a producer supplied alongside its URL
(the `data` field of its `getRequestConfig` result) is delivered as the
identical value on **every** status update — loading and terminal — that
producer receives during that cycle, for any network outcome. -/
theorem auxiliary_data_round_trip {Config Data : Type}
    (p : RequestPool Config Data) (cfg : Config)
    (oracle : String → FetchOutcome) (k : Nat) (u : String) (d : Data)
    (hk : (poolResults p cfg).get? k = some (.str u (some d)))
    (hok : (p.loadContent cfg).error = none) :
    ∀ upd ∈ callsTo k (cycleTrace p cfg oracle), upd.data = some d := by
  intro upd hupd
  rw [callsTo_cycleTrace_str p cfg oracle k u (some d) hk hok] at hupd
  cases ho : oracle u with
  | response resp =>
    rw [ho] at hupd
    rcases List.mem_cons.mp hupd with h | h
    · subst h
      rfl
    · have hupd' : upd = withData (terminalUpdate resp) (some d) := by
        simpa using h
      subst hupd'
      rfl
  | aborted =>
    rw [ho] at hupd
    rcases List.mem_cons.mp hupd with h | h
    · subst h
      rfl
    · simp at h
  | networkError =>
    rw [ho] at hupd
    rcases List.mem_cons.mp hupd with h | h
    · subst h
      rfl
    · simp at h

/-- Witness for C8 at a concrete input: `poolDedup`'s first producer
supplied data `1`, and the loading update it receives carries exactly
that value. -/
theorem auxiliary_data_round_trip_witness :
    (withData (loadingUpdate "/a") (some 1) : StatusUpdate Nat).data =
      some 1 :=
  auxiliary_data_round_trip poolDedup 0 oracleOk 0 "/a" 1 (by decide)
    (by decide) (withData (loadingUpdate "/a") (some 1)) (by decide)

/-! C9 -/

/-- C9: a producer whose URL assembly returned `null` for a cycle is
attached to no Request of that cycle and receives no status update of any
kind ('loading', 'loaded' or 'failed') for it, whatever the network does
and whether or not the cycle throws — while every producer that returned a
non-null URL in the same (non-throwing) cycle is attached to the Request
of exactly its URL. -/
theorem null_url_opt_out {Config Data : Type} (p : RequestPool Config Data)
    (cfg : Config) (oracle : String → FetchOutcome) (k : Nat)
    (hk : (poolResults p cfg).get? k = some .nullUrl) :
    callsTo k (cycleTrace p cfg oracle) = []
    ∧ (∀ r ∈ (p.loadContent cfg).requests, k ∉ r.updaters)
    ∧ (∀ j u d, (poolResults p cfg).get? j = some (.str u d) →
        (p.loadContent cfg).error = none →
        ∃ r, r ∈ (p.loadContent cfg).requests ∧ r.url = u ∧
          j ∈ r.updaters) := by
  refine ⟨callsTo_cycleTrace_null p cfg oracle k hk, ?_, ?_⟩
  · intro r hr
    have hok : (p.loadContent cfg).error = none := by
      cases herr : (p.loadContent cfg).error with
      | none => rfl
      | some e =>
        rw [loadContent_requests_err p cfg e
          (by rw [← loadContent_error_eq]; exact herr)] at hr
        cases hr
    have h0 : r.updaters.count k = 0 := by
      refine pool_request_count_zero p cfg r k hok hr ?_
      intro dk hcontra
      rw [hk] at hcontra
      cases hcontra
    rw [← List.count_eq_zero]
    exact h0
  · intro j u d hj hok
    have hmem : (j, d) ∈ membersFor u 0 (poolResults p cfg) := by
      simpa using membersFor_of_get u (poolResults p cfg) 0 j d hj
    cases hm : membersFor u 0 (poolResults p cfg) with
    | nil =>
      rw [hm] at hmem
      cases hmem
    | cons m ms =>
      have hfind := pool_findReq_members_cons p cfg u m ms hok hm
      have hfm := findReq_mem _ u _ hfind
      refine ⟨_, hfm.1, hfm.2, ?_⟩
      have hupd : ((Request.base Data u p.nextControllerId).addAll
          (m :: ms)).updaters = (m :: ms).map Prod.fst := by
        rw [addAll_updaters]
        rfl
      rw [hupd, ← hm]
      exact List.mem_map_of_mem Prod.fst hmem

/-- Witness for C9 at a concrete input: `poolNullMix`'s first producer
opts out, its second returns `/b`. -/
theorem null_url_opt_out_witness :
    callsTo 0 (cycleTrace poolNullMix 0 oracleOk) = []
    ∧ (∀ r ∈ (poolNullMix.loadContent 0).requests, 0 ∉ r.updaters)
    ∧ (∀ j u d, (poolResults poolNullMix 0).get? j = some (.str u d) →
        (poolNullMix.loadContent 0).error = none →
        ∃ r, r ∈ (poolNullMix.loadContent 0).requests ∧ r.url = u ∧
          j ∈ r.updaters) :=
  null_url_opt_out poolNullMix 0 oracleOk 0 (by decide)

end DCL
